import Mathlib

/-
Verification of the gesture-classification and parameter-mapping pipeline.

The development shallowly embeds the pipeline: landmark coordinates and all
derived quantities are rationals, the Euclidean norm and the standard
deviation (the only irrational primitives, both supplied by numpy in the
original) are passed in as explicit function parameters, dictionaries become
association lists in insertion order, and the one fallible computation
(feature extraction, which divides by the middle-tip-to-wrist distance with
no guard) returns an Option that is none exactly when that divisor is zero.
-/

namespace GB

/-- A 3D landmark point (x, y, z), coordinates as exact rationals. -/
structure Vec3 where
  x : ℚ
  y : ℚ
  z : ℚ
deriving DecidableEq

/-- Componentwise vector difference, as used for every distance computation. -/
def vsub (a b : Vec3) : Vec3 := ⟨a.x - b.x, a.y - b.y, a.z - b.z⟩

/-- Componentwise vector sum. -/
def vadd (a b : Vec3) : Vec3 := ⟨a.x + b.x, a.y + b.y, a.z + b.z⟩

/-- Componentwise arithmetic mean of a list of points (numpy mean with axis 0). -/
def vmean (l : List Vec3) : Vec3 :=
  let s := l.foldl vadd ⟨0, 0, 0⟩
  ⟨s.x / l.length, s.y / l.length, s.z / l.length⟩

/-- A detected hand: exactly 21 ordered landmark points plus a side label. -/
structure Hand where
  positions : Fin 21 → Vec3
  label : String

/-- Landmark index of the wrist. -/
def WRIST : Fin 21 := 0
/-- Landmark index of the thumb tip. -/
def THUMB_TIP : Fin 21 := 4
/-- Landmark index of the index-finger tip. -/
def INDEX_TIP : Fin 21 := 8
/-- Landmark index of the middle-finger tip. -/
def MIDDLE_TIP : Fin 21 := 12
/-- Landmark index of the ring-finger tip. -/
def RING_TIP : Fin 21 := 16
/-- Landmark index of the pinky tip. -/
def PINKY_TIP : Fin 21 := 20

/-- Hand.get_center: mean of all 21 landmark points. -/
def get_center (h : Hand) : Vec3 :=
  vmean ((List.finRange 21).map h.positions)

/-- Hand.get_finger_tips: the five fingertip points, thumb through pinky. -/
def get_finger_tips (h : Hand) : List Vec3 :=
  [h.positions THUMB_TIP, h.positions INDEX_TIP, h.positions MIDDLE_TIP,
   h.positions RING_TIP, h.positions PINKY_TIP]

-- Configuration constants from config.py that the core pipeline reads.
namespace Config

def SMOOTHING_WINDOW : ℕ := 5
def GESTURE_CONFIDENCE_MIN : ℚ := 6/10
def VOLUME_MIN : ℚ := 0
def VOLUME_MAX : ℚ := 1
def PITCH_MIN : ℚ := 50
def PITCH_MAX : ℚ := 2000
def TEMPO_MIN : ℚ := 60
def TEMPO_MAX : ℚ := 200
def REVERB_MIN : ℚ := 0
def REVERB_MAX : ℚ := 1
def HAND_X_MIN : ℚ := 1/10
def HAND_X_MAX : ℚ := 9/10
def HAND_Y_MIN : ℚ := 1/10
def HAND_Y_MAX : ℚ := 9/10

end Config

/-! ## Gesture classification (src/vision/gestures.py) -/

/-- A value in the feature mapping: either a boolean flag or a scalar. -/
inductive FeatVal where
  | b (v : Bool)
  | n (v : ℚ)
deriving DecidableEq

/-- Numeric coercion applied when a feature value meets a numeric comparison
(Python compares booleans as 0 and 1). -/
def FeatVal.toRat : FeatVal → ℚ
  | .b v => if v then 1 else 0
  | .n v => v

/-- Python equality between a feature value and an expected boolean
(a numeric actual value compares against 0 or 1). -/
def FeatVal.pyEqBool : FeatVal → Bool → Bool
  | .b v, e => v == e
  | .n v, e => v == (if e then 1 else 0)

/-- The feature mapping, an association list in dict insertion order. -/
abbrev Features := List (String × FeatVal)

/-- An expected profile entry: a boolean or an inclusive numeric range. -/
inductive Expected where
  | eb (v : Bool)
  | er (lo hi : ℚ)
deriving DecidableEq

/-- A gesture profile: feature name to expected value, in dict order. -/
abbrev Profile := List (String × Expected)

/-- The five built-in gesture profiles in registration (dict insertion) order. -/
def gesture_profiles : List (String × Profile) :=
  [("open_palm",
     [("finger_spread", .er (6/10) 1),
      ("thumb_extended", .eb true),
      ("fingers_extended", .eb true)]),
   ("fist",
     [("finger_spread", .er 0 (3/10)),
      ("thumb_extended", .eb false),
      ("fingers_extended", .eb false)]),
   ("peace_sign",
     [("index_extended", .eb true),
      ("middle_extended", .eb true),
      ("ring_pinky_closed", .eb true),
      ("finger_spread", .er (4/10) (8/10))]),
   ("thumbs_up",
     [("thumb_extended", .eb true),
      ("other_fingers_closed", .eb true),
      ("thumb_pointing_up", .eb true)]),
   ("pointing",
     [("index_extended", .eb true),
      ("other_fingers_closed", .eb true),
      ("index_pointing", .eb true)])]

/-- Classification result. -/
structure Gesture where
  name : String
  confidence : ℚ
  hand_label : String
deriving DecidableEq

/-- Score contributed by one profile entry in the loop body of
GestureClassifier._match_gesture: nothing if the key is absent from the
feature mapping, 1 for a matching boolean, and for a range either 1 inside
the range or max(0, 1 - 2 * distance) outside it. -/
def entryScore (features : Features) (key : String) (ev : Expected) : ℚ :=
  match List.lookup key features with
  | none => 0
  | some av =>
    match ev with
    | .eb e => if av.pyEqBool e then 1 else 0
    | .er lo hi =>
      let a := av.toRat
      if lo ≤ a ∧ a ≤ hi then 1
      else
        let d := if a < lo then lo - a else a - hi
        max 0 (1 - d * 2)

/-- The (score, max_score) accumulator of the _match_gesture loop. -/
def matchCounts (features : Features) (profile : Profile) : ℚ × ℚ :=
  profile.foldl (fun sm e => (sm.1 + entryScore features e.1 e.2, sm.2 + 1)) (0, 0)

/-- GestureClassifier._match_gesture: score / max_score, or 0 if max_score
is not positive. -/
def match_gesture (features : Features) (profile : Profile) : ℚ :=
  if 0 < (matchCounts features profile).2 then
    (matchCounts features profile).1 / (matchCounts features profile).2
  else 0

/-- Per-profile scores of a feature vector, in profile registration order. -/
def scoreTable (features : Features) : List (String × ℚ) :=
  gesture_profiles.map (fun p => (p.1, match_gesture features p.2))

/-- One step of the best-score selection loop in GestureClassifier.classify:
update the best gesture only on a strictly greater score. -/
def selectStep (acc : Option String × ℚ) (x : String × ℚ) : Option String × ℚ :=
  if acc.2 < x.2 then (some x.1, x.2) else acc

/-- The classification of a feature vector: iterate the profiles in
registration order keeping the strictly best score (starting from best
score 0 and no best gesture), and fall back to the name "unknown". -/
def classifyFeatures (features : Features) (label : String) : Gesture :=
  let r := (scoreTable features).foldl selectStep (none, 0)
  ⟨r.1.getD "unknown", r.2, label⟩

/-- Mean pairwise distance terms of _calculate_spread, in loop order. -/
def pairDists (nf : Vec3 → ℚ) : List Vec3 → List ℚ
  | [] => []
  | x :: t => t.map (fun y => nf (vsub x y)) ++ pairDists nf t

/-- GestureClassifier._calculate_spread. -/
def calculate_spread (nf : Vec3 → ℚ) (tips : List Vec3) : ℚ :=
  if tips.length < 2 then 0
  else
    let ds := pairDists nf tips
    let spread := if ds.length ≠ 0 then ds.sum / ds.length else 0
    min 1 (spread / (1/2))

/-- GestureClassifier._calculate_curl. -/
def calculate_curl (nf : Vec3 → ℚ) (pos : Fin 21 → Vec3) : ℚ :=
  let palmCenter := vmean ((List.finRange 21).take 9 |>.map pos)
  let tips := [pos 4, pos 8, pos 12, pos 16, pos 20]
  let ds := tips.map (fun t => nf (vsub t palmCenter))
  let avg := ds.sum / ds.length
  1 - min 1 (avg / (3/10))

/-- The hand-size normalizer of _extract_features: distance from middle tip
to wrist under the supplied norm. -/
def handSize (nf : Vec3 → ℚ) (h : Hand) : ℚ :=
  nf (vsub (h.positions MIDDLE_TIP) (h.positions WRIST))

/-- GestureClassifier._extract_features. The source divides by hand_size
with no guard; division by zero is the one fault the function can hit, so
the embedding returns none exactly when hand_size = 0 and otherwise the
feature mapping in dict insertion order. -/
def extract_features (nf : Vec3 → ℚ) (h : Hand) : Option Features :=
  let pos := h.positions
  let wrist := pos WRIST
  let thumb_tip := pos THUMB_TIP
  let index_tip := pos INDEX_TIP
  let middle_tip := pos MIDDLE_TIP
  let ring_tip := pos RING_TIP
  let pinky_tip := pos PINKY_TIP
  let hand_size := nf (vsub middle_tip wrist)
  if hand_size = 0 then none
  else
    let thumb_dist := nf (vsub thumb_tip wrist) / hand_size
    let index_dist := nf (vsub index_tip wrist) / hand_size
    let middle_dist := nf (vsub middle_tip wrist) / hand_size
    let ring_dist := nf (vsub ring_tip wrist) / hand_size
    let pinky_dist := nf (vsub pinky_tip wrist) / hand_size
    let finger_spread := calculate_spread nf (get_finger_tips h)
    let finger_curl := calculate_curl nf pos
    let thumb_base := pos 2
    let index_base := pos 5
    let middle_base := pos 9
    let ring_base := pos 13
    let pinky_base := pos 17
    let thumb_extended :=
      decide (nf (vsub thumb_base wrist) * (13/10) < nf (vsub thumb_tip wrist))
    let index_extended :=
      decide (nf (vsub index_base wrist) * (14/10) < nf (vsub index_tip wrist))
    let middle_extended :=
      decide (nf (vsub middle_base wrist) * (14/10) < nf (vsub middle_tip wrist))
    let ring_extended :=
      decide (nf (vsub ring_base wrist) * (14/10) < nf (vsub ring_tip wrist))
    let pinky_extended :=
      decide (nf (vsub pinky_base wrist) * (14/10) < nf (vsub pinky_tip wrist))
    let fingers_extended :=
      decide (4 ≤ (if index_extended then 1 else 0) + (if middle_extended then 1 else 0)
                + (if ring_extended then 1 else 0) + (if pinky_extended then (1:ℕ) else 0))
    let other_fingers_closed := !middle_extended && !ring_extended && !pinky_extended
    let ring_pinky_closed := !ring_extended && !pinky_extended
    let index_middle_spread := nf (vsub index_tip middle_tip) / hand_size
    let thumb_pointing_up := decide (thumb_tip.y < wrist.y)
    let index_pointing := decide (index_tip.y < middle_tip.y)
    some
      [("thumb_dist", .n thumb_dist),
       ("index_dist", .n index_dist),
       ("middle_dist", .n middle_dist),
       ("ring_dist", .n ring_dist),
       ("pinky_dist", .n pinky_dist),
       ("finger_spread", .n finger_spread),
       ("finger_curl", .n finger_curl),
       ("thumb_extended", .b thumb_extended),
       ("index_extended", .b index_extended),
       ("middle_extended", .b middle_extended),
       ("ring_extended", .b ring_extended),
       ("pinky_extended", .b pinky_extended),
       ("fingers_extended", .b fingers_extended),
       ("other_fingers_closed", .b other_fingers_closed),
       ("ring_pinky_closed", .b ring_pinky_closed),
       ("index_middle_spread", .n index_middle_spread),
       ("thumb_pointing_up", .b thumb_pointing_up),
       ("index_pointing", .b index_pointing)]

/-- GestureClassifier.classify: feature extraction followed by best-profile
selection; none only when feature extraction faults. -/
def classify (nf : Vec3 → ℚ) (h : Hand) : Option Gesture :=
  (extract_features nf h).map (fun f => classifyFeatures f h.label)

/-! ## Parameter mapping (src/audio/paramMap.py) -/

/-- Append to a deque of capacity K: the oldest elements are evicted so the
length never exceeds K. -/
def pushB (K : ℕ) (buf : List α) (x : α) : List α :=
  if K < (buf ++ [x]).length then (buf ++ [x]).drop ((buf ++ [x]).length - K)
  else buf ++ [x]

/-- np.clip: lower bound applied first, then upper bound. -/
def clip (v lo hi : ℚ) : ℚ := min (max v lo) hi

/-- ParameterMapper._map_range: clamp to the input range, normalize (0.5 on
a degenerate input range), and rescale to the output range. -/
def map_range (v in_min in_max out_min out_max : ℚ) : ℚ :=
  out_min +
    (if in_max = in_min then 1/2
     else (clip v in_min in_max - in_min) / (in_max - in_min)) *
      (out_max - out_min)

/-- The gesture-name-to-instrument-id dict, in insertion order. -/
def gesture_to_sound : List (String × ℚ) :=
  [("open_palm", 0), ("fist", 1), ("peace_sign", 2),
   ("thumbs_up", 3), ("pointing", 4), ("unknown", 0)]

/-- Mutable state of a ParameterMapper: the two bounded buffers. -/
structure MapperState where
  position_buffer : List Vec3
  gesture_buffer : List String
deriving DecidableEq

/-- State of a freshly constructed ParameterMapper: both buffers empty. -/
def initialMapper : MapperState := ⟨[], []⟩

/-- ParameterMapper.map_hand_to_parameters. nf is the Euclidean norm and
stdf the standard deviation primitive (numpy in the source); the produced
parameter dict is an association list in insertion order, and the updated
buffers are returned as the new state. -/
def map_hand_to_parameters (nf : Vec3 → ℚ) (stdf : List Vec3 → ℚ)
    (st : MapperState) (hand : Hand) (gesture : Gesture) :
    MapperState × List (String × ℚ) :=
  let hand_center := get_center hand
  let buf1 := pushB Config.SMOOTHING_WINDOW st.position_buffer hand_center
  let smoothed := if 0 < buf1.length then vmean buf1 else hand_center
  let x := clip smoothed.x Config.HAND_X_MIN Config.HAND_X_MAX
  let y := clip smoothed.y Config.HAND_Y_MIN Config.HAND_Y_MAX
  let volume := map_range y Config.HAND_Y_MIN Config.HAND_Y_MAX
    Config.VOLUME_MAX Config.VOLUME_MIN
  let pitch := map_range x Config.HAND_X_MIN Config.HAND_X_MAX
    Config.PITCH_MIN Config.PITCH_MAX
  let reverb := map_range smoothed.z (-(1/2)) (1/2)
    Config.REVERB_MIN Config.REVERB_MAX
  let record := Config.GESTURE_CONFIDENCE_MIN < gesture.confidence
  let gbuf := if record then pushB 5 st.gesture_buffer gesture.name
              else st.gesture_buffer
  let soundParams : List (String × ℚ) :=
    if record then [("sound", (List.lookup gesture.name gesture_to_sound).getD 0)]
    else []
  let tempo :=
    if 2 ≤ buf1.length then
      let prev_pos := buf1.getD (buf1.length - 2) hand_center
      let movement_speed := nf (vsub smoothed prev_pos)
      map_range movement_speed 0 (1/10) Config.TEMPO_MIN Config.TEMPO_MAX
    else (Config.TEMPO_MIN + Config.TEMPO_MAX) / 2
  let tips := get_finger_tips hand
  let hand_size := if 0 < tips.length then stdf tips else 1/10
  let hand_size_normalized := min 1 (hand_size / (2/10))
  (⟨buf1, gbuf⟩,
    [("volume", volume), ("pitch", pitch), ("reverb", reverb)] ++ soundParams
      ++ [("tempo", tempo), ("hand_size", hand_size_normalized)])

/-- The state transition of one map_hand_to_parameters call. -/
def mhpStep (nf : Vec3 → ℚ) (stdf : List Vec3 → ℚ)
    (st : MapperState) (ig : Hand × Gesture) : MapperState :=
  (map_hand_to_parameters nf stdf st ig.1 ig.2).1

/-- One update of the Counter built from the gesture buffer: bump the count
of an existing key in place, else append the key with count 1. -/
def updateCounter : List (String × ℕ) → String → List (String × ℕ)
  | [], x => [(x, 1)]
  | (k, n) :: t, x =>
    if k = x then (k, n + 1) :: t else (k, n) :: updateCounter t x

/-- The Counter of a buffer: counts keyed in first-occurrence order. -/
def counterOf (l : List String) : List (String × ℕ) :=
  l.foldl updateCounter []

/-- ParameterMapper.get_most_common_gesture: none on an empty buffer, else
the first key of the Counter with the (weakly) greatest count, mirroring
Counter.most_common(1) whose tie-break keeps the earliest inserted key. -/
def get_most_common_gesture (buf : List String) : Option String :=
  match counterOf buf with
  | [] => none
  | p :: ps => some ((ps.foldl (fun b q => if b.2 < q.2 then q else b) p).1)

/-- Modelled from the spec: the tie-break rule exactly as the specification
sentence words it, for comparison with the code. The label returned is the
one that first reaches the (tied) maximum occurrence count under a
left-to-right tally of the buffer. -/
def specMostCommon (l : List String) : Option String :=
  let M := (l.map (fun x => l.count x)).foldr max 0
  ((List.range l.length).find?
      (fun i => (l.take (i + 1)).count (l.getD i "") == M)).map
    (fun i => l.getD i "")

/-! ## Auxiliary definitions for the proofs and concrete instances -/

/-- First-match count lookup in a Counter association list. -/
def valOf : List (String × ℕ) → String → ℕ
  | [], _ => 0
  | (a, n) :: t, k => if a = k then n else valOf t k

/-- The keys of a Counter association list, in insertion order. -/
def keysOf (c : List (String × ℕ)) : List String := c.map Prod.fst

/-- Modelled from the spec: the fixed 5-entry gesture-to-instrument table
with fallback 0 exactly as the claim words it (open_palm to 0, fist to 1,
peace_sign to 2, thumbs_up to 3, pointing to 4, anything else to 0), for
comparison with the dict lookup in the code. -/
def specSoundFor (n : String) : ℚ :=
  if n = "open_palm" then 0
  else if n = "fist" then 1
  else if n = "peace_sign" then 2
  else if n = "thumbs_up" then 3
  else if n = "pointing" then 4
  else 0

/-- A degenerate hand input: all 21 landmarks coincide at the origin. -/
def degenerateHand : Hand := ⟨fun _ => ⟨0, 0, 0⟩, "Left"⟩

/-- A concrete hand whose middle tip does not coincide with the wrist. -/
def rampHand : Hand :=
  ⟨fun i => if i = WRIST then ⟨0, 0, 0⟩ else ⟨1, 0, 0⟩, "Left"⟩

/-- A concrete computable norm, agreeing with the Euclidean norm on the
zero vector and on axis-aligned vectors; used to instantiate the norm
parameter on concrete inputs. -/
def l1norm (v : Vec3) : ℚ :=
  (if v.x < 0 then -v.x else v.x) + (if v.y < 0 then -v.y else v.y) +
    (if v.z < 0 then -v.z else v.z)

/-- A concrete standard-deviation stand-in for instantiating the std
parameter on concrete inputs. -/
def stdZero : List Vec3 → ℚ := fun _ => 0

/-- A concrete hand whose 21 landmarks all sit at (q, q, q). -/
def cHand (q : ℚ) : Hand := ⟨fun _ => ⟨q, q, q⟩, "Right"⟩

/-- A concrete gesture result with the given confidence. -/
def cGest (c : ℚ) : Gesture := ⟨"fist", c, "Right"⟩

/-- Six concrete frames for exercising the smoothing buffer. -/
def sixFrames : List (Hand × Gesture) :=
  [(cHand 1, cGest 0), (cHand 2, cGest 0), (cHand 3, cGest 0),
   (cHand 4, cGest 0), (cHand 5, cGest 0), (cHand 6, cGest 0)]

/-! ## Helper lemmas about the scoring loop -/

lemma entryScore_nonneg (f : Features) (k : String) (e : Expected) :
    0 ≤ entryScore f k e := by
  unfold entryScore
  cases List.lookup k f with
  | none => simp
  | some av =>
    cases e with
    | eb b => dsimp only; split <;> norm_num
    | er lo hi =>
      dsimp only
      split
      · norm_num
      · exact le_max_left 0 _

lemma entryScore_le_one (f : Features) (k : String) (e : Expected) :
    entryScore f k e ≤ 1 := by
  unfold entryScore
  cases List.lookup k f with
  | none => simp
  | some av =>
    cases e with
    | eb b => dsimp only; split <;> norm_num
    | er lo hi =>
      dsimp only
      split
      · norm_num
      · rename_i hout
        apply max_le (by norm_num)
        rcases lt_or_le av.toRat lo with hlt | hge
        · rw [if_pos hlt]; linarith
        · rw [if_neg (not_lt.mpr hge)]
          have hhi : hi < av.toRat := by
            by_contra hcon
            exact hout ⟨hge, not_lt.mp hcon⟩
          linarith

lemma matchCounts_go (f : Features) :
    ∀ (p : Profile) (s m : ℚ), 0 ≤ s → s ≤ m →
      0 ≤ (p.foldl (fun sm e => (sm.1 + entryScore f e.1 e.2, sm.2 + 1)) (s, m)).1 ∧
      (p.foldl (fun sm e => (sm.1 + entryScore f e.1 e.2, sm.2 + 1)) (s, m)).1 ≤
        (p.foldl (fun sm e => (sm.1 + entryScore f e.1 e.2, sm.2 + 1)) (s, m)).2 ∧
      (p.foldl (fun sm e => (sm.1 + entryScore f e.1 e.2, sm.2 + 1)) (s, m)).2 =
        m + p.length := by
  intro p
  induction p with
  | nil => intro s m h0 hsm; exact ⟨h0, hsm, by simp⟩
  | cons e t ih =>
    intro s m h0 hsm
    have h1 := entryScore_nonneg f e.1 e.2
    have h2 := entryScore_le_one f e.1 e.2
    have := ih (s + entryScore f e.1 e.2) (m + 1) (by linarith) (by linarith)
    refine ⟨this.1, this.2.1, ?_⟩
    rw [List.foldl_cons, this.2.2, List.length_cons]
    push_cast
    ring

lemma matchCounts_snd (f : Features) (p : Profile) :
    (matchCounts f p).2 = p.length := by
  have := (matchCounts_go f p 0 0 le_rfl le_rfl).2.2
  unfold matchCounts
  rw [this]; ring

lemma match_gesture_nonneg (f : Features) (p : Profile) :
    0 ≤ match_gesture f p := by
  unfold match_gesture
  have h := matchCounts_go f p 0 0 le_rfl le_rfl
  split
  · exact div_nonneg h.1 (by rename_i hp; linarith)
  · exact le_rfl

lemma match_gesture_le_one (f : Features) (p : Profile) :
    match_gesture f p ≤ 1 := by
  unfold match_gesture
  have h := matchCounts_go f p 0 0 le_rfl le_rfl
  split
  · rename_i hp
    exact (div_le_one hp).mpr h.2.1
  · norm_num

lemma lookup_pair_cons {β : Type} (a k : String) (v : β) (t : List (String × β)) :
    List.lookup a ((k, v) :: t) = if a = k then some v else List.lookup a t := by
  by_cases h : a = k
  · subst h; simp [List.lookup]
  · rw [if_neg h]
    have hb : (a == k) = false := beq_eq_false_iff_ne.mpr h
    simp [List.lookup, hb]

lemma matchCounts_nil_fst :
    ∀ (p : Profile) (s m : ℚ),
      (p.foldl (fun sm e => (sm.1 + entryScore [] e.1 e.2, sm.2 + 1)) (s, m)).1 = s := by
  intro p
  induction p with
  | nil => intro s m; rfl
  | cons e t ih =>
    intro s m
    rw [List.foldl_cons]
    have he : entryScore [] e.1 e.2 = 0 := by simp [entryScore, List.lookup]
    rw [he, add_zero]
    exact ih s (m + 1)

lemma match_gesture_nil (p : Profile) : match_gesture [] p = 0 := by
  unfold match_gesture
  split
  · rw [show (matchCounts [] p).1 = 0 from matchCounts_nil_fst p 0 0, zero_div]
  · rfl

/-! ## Helper lemmas about the best-profile selection loop -/

lemma selectStep_snd_le (acc : Option String × ℚ) (x : String × ℚ) :
    acc.2 ≤ (selectStep acc x).2 := by
  unfold selectStep
  split
  · rename_i h; exact le_of_lt h
  · exact le_rfl

lemma foldl_selectStep_spec :
    ∀ (l : List (String × ℚ)) (acc : Option String × ℚ),
      (l.foldl selectStep acc = acc ∧ ∀ y ∈ l, y.2 ≤ acc.2) ∨
      (∃ l1 x l2, l = l1 ++ x :: l2 ∧
        l.foldl selectStep acc = (some x.1, x.2) ∧ acc.2 < x.2 ∧
        (∀ y ∈ l1, y.2 < x.2) ∧ (∀ y ∈ l2, y.2 ≤ x.2)) := by
  intro l
  induction l with
  | nil => intro acc; left; exact ⟨rfl, by simp⟩
  | cons z l ih =>
    intro acc
    rw [List.foldl_cons]
    by_cases hz : acc.2 < z.2
    · have hstep : selectStep acc z = (some z.1, z.2) := by
        unfold selectStep; rw [if_pos hz]
      rw [hstep]
      rcases ih (some z.1, z.2) with ⟨heq, hle⟩ | ⟨l1, x, l2, hdec, heq, hpos, hl1, hl2⟩
      · right
        exact ⟨[], z, l, by simp, heq, hz, by simp, hle⟩
      · right
        refine ⟨z :: l1, x, l2, by rw [hdec, List.cons_append], heq,
          lt_trans hz hpos, ?_, hl2⟩
        intro y hy
        rcases List.mem_cons.mp hy with hy | hy
        · rw [hy]; exact hpos
        · exact hl1 y hy
    · have hstep : selectStep acc z = acc := by
        unfold selectStep; rw [if_neg hz]
      rw [hstep]
      rcases ih acc with ⟨heq, hle⟩ | ⟨l1, x, l2, hdec, heq, hpos, hl1, hl2⟩
      · left
        refine ⟨heq, ?_⟩
        intro y hy
        rcases List.mem_cons.mp hy with hy | hy
        · rw [hy]; exact not_lt.mp hz
        · exact hle y hy
      · right
        refine ⟨z :: l1, x, l2, by rw [hdec, List.cons_append], heq, hpos, ?_, hl2⟩
        intro y hy
        rcases List.mem_cons.mp hy with hy | hy
        · rw [hy]; exact lt_of_le_of_lt (not_lt.mp hz) hpos
        · exact hl1 y hy

/-! ## Claim theorems -/

/-- C5: the range mapper on a degenerate input range (in_min = in_max)
returns exactly the midpoint (out_min + out_max) / 2, for every value and
every output range, because the normalized parameter is defined as 0.5
when the input range collapses. -/
theorem C5_degenerate_range_midpoint (v a lo hi : ℚ) :
    map_range v a a lo hi = (lo + hi) / 2 := by
  unfold map_range
  rw [if_pos rfl]
  ring

/-- C6: with in_min ≤ in_max fixed, the range mapper is monotone in the
value: non-decreasing when out_min < out_max, non-increasing when
out_min > out_max, and constant on values at or below in_min and constant
on values at or above in_max because of the input clamp. -/
theorem C6_map_range_monotone (in_min in_max out_min out_max v w : ℚ)
    (hio : in_min ≤ in_max) (hvw : v ≤ w) :
    (out_min < out_max →
      map_range v in_min in_max out_min out_max ≤
        map_range w in_min in_max out_min out_max) ∧
    (out_max < out_min →
      map_range w in_min in_max out_min out_max ≤
        map_range v in_min in_max out_min out_max) ∧
    (w ≤ in_min →
      map_range v in_min in_max out_min out_max =
        map_range w in_min in_max out_min out_max) ∧
    (in_max ≤ v →
      map_range v in_min in_max out_min out_max =
        map_range w in_min in_max out_min out_max) := by
  have hcv : clip v in_min in_max ≤ clip w in_min in_max :=
    min_le_min (max_le_max hvw le_rfl) le_rfl
  by_cases hdeg : in_max = in_min
  · unfold map_range
    rw [if_pos hdeg, if_pos hdeg]
    exact ⟨fun _ => le_rfl, fun _ => le_rfl, fun _ => rfl, fun _ => rfl⟩
  · have hlt : in_min < in_max := lt_of_le_of_ne hio (Ne.symm hdeg)
    have hden : (0:ℚ) < in_max - in_min := by linarith
    have ht : (clip v in_min in_max - in_min) / (in_max - in_min) ≤
        (clip w in_min in_max - in_min) / (in_max - in_min) :=
      div_le_div_of_nonneg_right (by linarith) (le_of_lt hden)
    refine ⟨?_, ?_, ?_, ?_⟩
    · intro ho
      unfold map_range
      rw [if_neg hdeg, if_neg hdeg]
      have := mul_le_mul_of_nonneg_right ht (by linarith : (0:ℚ) ≤ out_max - out_min)
      linarith
    · intro ho
      unfold map_range
      rw [if_neg hdeg, if_neg hdeg]
      have := mul_le_mul_of_nonpos_right ht (by linarith : out_max - out_min ≤ 0)
      linarith
    · intro hw
      have hev : clip v in_min in_max = in_min := by
        unfold clip
        rw [max_eq_right (le_trans hvw hw), min_eq_left hio]
      have hew : clip w in_min in_max = in_min := by
        unfold clip
        rw [max_eq_right hw, min_eq_left hio]
      unfold map_range
      rw [hev, hew]
    · intro hv
      have hev : clip v in_min in_max = in_max :=
        min_eq_right (le_trans hv (le_max_left v in_min))
      have hew : clip w in_min in_max = in_max :=
        min_eq_right (le_trans (le_trans hv hvw) (le_max_left w in_min))
      unfold map_range
      rw [hev, hew]

/-- Witness for C6 at concrete inputs. -/
theorem C6_map_range_monotone_witness :
    (map_range 0 0 1 3 7 ≤ map_range 1 0 1 3 7) ∧
    (map_range 1 0 1 7 3 ≤ map_range 0 0 1 7 3) ∧
    (map_range (-5) 0 1 3 7 = map_range 0 0 1 3 7) ∧
    (map_range 2 0 1 3 7 = map_range 3 0 1 3 7) :=
  ⟨(C6_map_range_monotone 0 1 3 7 0 1 (by norm_num) (by norm_num)).1 (by norm_num),
   (C6_map_range_monotone 0 1 7 3 0 1 (by norm_num) (by norm_num)).2.1 (by norm_num),
   (C6_map_range_monotone 0 1 3 7 (-5) 0 (by norm_num) (by norm_num)).2.2.1 (by norm_num),
   (C6_map_range_monotone 0 1 3 7 2 3 (by norm_num) (by norm_num)).2.2.2 (by norm_num)⟩

lemma scoreTable_nonneg (f : Features) : ∀ y ∈ scoreTable f, 0 ≤ y.2 := by
  intro y hy
  rcases List.mem_map.mp hy with ⟨p, _, rfl⟩
  exact match_gesture_nonneg f p.2

lemma classifyFeatures_eq (f : Features) (lab : String) :
    classifyFeatures f lab =
      ⟨((scoreTable f).foldl selectStep (none, 0)).1.getD "unknown",
        ((scoreTable f).foldl selectStep (none, 0)).2, lab⟩ := rfl

/-- C1: for every feature vector, every built-in profile's score lies in
[0,1]; the classification result's confidence is one of the per-profile
scores and is greater or equal to all of them (so it equals their maximum),
and when no profile scores strictly above 0 the result is confidence 0 with
name "unknown". -/
theorem C1_confidence_is_max_profile_score (f : Features) (lab : String) :
    (∀ p ∈ gesture_profiles, 0 ≤ match_gesture f p.2 ∧ match_gesture f p.2 ≤ 1) ∧
    (classifyFeatures f lab).confidence ∈ (scoreTable f).map Prod.snd ∧
    (∀ s ∈ (scoreTable f).map Prod.snd, s ≤ (classifyFeatures f lab).confidence) ∧
    ((∀ p ∈ gesture_profiles, ¬ 0 < match_gesture f p.2) →
      (classifyFeatures f lab).confidence = 0 ∧
      (classifyFeatures f lab).name = "unknown") := by
  refine ⟨fun p _ => ⟨match_gesture_nonneg f p.2, match_gesture_le_one f p.2⟩, ?_⟩
  rw [classifyFeatures_eq]
  rcases foldl_selectStep_spec (scoreTable f) (none, 0) with
    ⟨heq, hle⟩ | ⟨l1, x, l2, hdec, heq, hpos, hl1, hl2⟩
  · rw [heq]
    have hne : scoreTable f ≠ [] := by simp [scoreTable, gesture_profiles]
    obtain ⟨y, hy⟩ := List.exists_mem_of_ne_nil _ hne
    have hy0 : y.2 = 0 := le_antisymm (hle y hy) (scoreTable_nonneg f y hy)
    refine ⟨?_, ?_, fun _ => ⟨rfl, rfl⟩⟩
    · exact List.mem_map.mpr ⟨y, hy, hy0⟩
    · intro s hs
      rcases List.mem_map.mp hs with ⟨z, hz, rfl⟩
      exact hle z hz
  · rw [heq]
    have hxmem : x ∈ scoreTable f := by
      rw [hdec]; exact List.mem_append_right _ (List.mem_cons_self _ _)
    refine ⟨List.mem_map_of_mem Prod.snd hxmem, ?_, ?_⟩
    · intro s hs
      rcases List.mem_map.mp hs with ⟨z, hz, rfl⟩
      rw [hdec] at hz
      rcases List.mem_append.mp hz with hz | hz
      · exact le_of_lt (hl1 z hz)
      · rcases List.mem_cons.mp hz with hz | hz
        · rw [hz]
        · exact hl2 z hz
    · intro hnone
      exfalso
      rcases List.mem_map.mp hxmem with ⟨p, hp, hxp⟩
      have : ¬ 0 < match_gesture f p.2 := hnone p hp
      apply this
      have : x.2 = match_gesture f p.2 := by rw [← hxp]
      rw [← this]
      exact hpos

/-- Witness for C1 at the empty feature vector, where no profile scores
strictly above 0. -/
theorem C1_confidence_witness :
    (classifyFeatures [] "Left").confidence = 0 ∧
    (classifyFeatures [] "Left").name = "unknown" :=
  (C1_confidence_is_max_profile_score [] "Left").2.2.2 (by
    intro p hp
    rw [match_gesture_nil]
    exact lt_irrefl 0)

/-- C3: the profile table iterates in its registration order (open_palm,
fist, peace_sign, thumbs_up, pointing); the classifier keeps the strictly
greatest score seen so far, so the winning profile strictly beats every
earlier profile and is only weakly beaten by later ones (first-registered
wins ties); and when the best score is 0 the result is name "unknown". -/
theorem C3_first_registered_wins (f : Features) (lab : String) :
    gesture_profiles.map Prod.fst =
      ["open_palm", "fist", "peace_sign", "thumbs_up", "pointing"] ∧
    ((classifyFeatures f lab).confidence = 0 →
      (classifyFeatures f lab).name = "unknown") ∧
    (0 < (classifyFeatures f lab).confidence →
      ∃ l1 nm l2,
        scoreTable f = l1 ++ (nm, (classifyFeatures f lab).confidence) :: l2 ∧
        (classifyFeatures f lab).name = nm ∧
        (∀ y ∈ l1, y.2 < (classifyFeatures f lab).confidence) ∧
        (∀ y ∈ l2, y.2 ≤ (classifyFeatures f lab).confidence)) := by
  refine ⟨by rfl, ?_⟩
  rw [classifyFeatures_eq]
  rcases foldl_selectStep_spec (scoreTable f) (none, 0) with
    ⟨heq, hle⟩ | ⟨l1, x, l2, hdec, heq, hpos, hl1, hl2⟩
  · rw [heq]
    exact ⟨fun _ => rfl, fun h => absurd h (lt_irrefl 0)⟩
  · rw [heq]
    constructor
    · intro hc
      have hx2 : x.2 = 0 := hc
      have h0 : (0:ℚ) < x.2 := hpos
      rw [hx2] at h0
      exact absurd h0 (lt_irrefl 0)
    · intro _
      refine ⟨l1, x.1, l2, ?_, rfl, hl1, hl2⟩
      rw [hdec]

/-- Witness for C3 on a feature vector where open_palm and thumbs_up tie
at score 1/3 and the first-registered profile wins. -/
theorem C3_first_registered_wins_witness :
    ∃ l1 nm l2,
      scoreTable [("thumb_extended", FeatVal.b true)] =
        l1 ++ (nm, (classifyFeatures [("thumb_extended", FeatVal.b true)]
          "Left").confidence) :: l2 ∧
      (classifyFeatures [("thumb_extended", FeatVal.b true)] "Left").name = nm ∧
      (∀ y ∈ l1, y.2 <
        (classifyFeatures [("thumb_extended", FeatVal.b true)] "Left").confidence) ∧
      (∀ y ∈ l2, y.2 ≤
        (classifyFeatures [("thumb_extended", FeatVal.b true)] "Left").confidence) :=
  (C3_first_registered_wins [("thumb_extended", FeatVal.b true)] "Left").2.2 (by
    simp [classifyFeatures, scoreTable, gesture_profiles, selectStep,
      match_gesture, matchCounts, entryScore, lookup_pair_cons,
      FeatVal.pyEqBool, FeatVal.toRat]
    norm_num)

/-- C2: the claim states that the divisions by hand_size in
_extract_features are guarded so that the division-by-zero branch is
unreachable. The code has no such guard: on a hand whose middle-tip and
wrist landmarks coincide, hand_size is 0 and feature extraction hits the
division fault (the none branch of the embedding). -/
theorem C2_division_fault_reachable :
    handSize l1norm degenerateHand = 0 ∧
    extract_features l1norm degenerateHand = none := by
  have h0 : l1norm (vsub (degenerateHand.positions MIDDLE_TIP)
      (degenerateHand.positions WRIST)) = 0 := by
    norm_num [l1norm, vsub, degenerateHand]
  refine ⟨h0, ?_⟩
  simp only [extract_features]
  rw [if_pos h0]

lemma gesture_to_sound_getD (n : String) :
    (List.lookup n gesture_to_sound).getD 0 = specSoundFor n := by
  simp only [gesture_to_sound, specSoundFor, lookup_pair_cons]
  split_ifs <;> simp

/-- C8: the key "sound" is present in the output parameter set exactly when
the gesture confidence strictly exceeds GESTURE_CONFIDENCE_MIN (which is
0.6); when present its value is the claimed 5-entry table lookup with
fallback 0, and the gesture name is pushed onto the gesture buffer in
exactly that case. -/
theorem C8_sound_presence_gating (nf : Vec3 → ℚ) (stdf : List Vec3 → ℚ)
    (st : MapperState) (hand : Hand) (g : Gesture) :
    Config.GESTURE_CONFIDENCE_MIN = 3/5 ∧
    (Config.GESTURE_CONFIDENCE_MIN < g.confidence →
      List.lookup "sound" (map_hand_to_parameters nf stdf st hand g).2 =
        some (specSoundFor g.name) ∧
      (map_hand_to_parameters nf stdf st hand g).1.gesture_buffer =
        pushB 5 st.gesture_buffer g.name) ∧
    (¬ Config.GESTURE_CONFIDENCE_MIN < g.confidence →
      List.lookup "sound" (map_hand_to_parameters nf stdf st hand g).2 = none ∧
      (map_hand_to_parameters nf stdf st hand g).1.gesture_buffer =
        st.gesture_buffer) := by
  refine ⟨by norm_num [Config.GESTURE_CONFIDENCE_MIN], ?_, ?_⟩
  · intro hrec
    simp only [map_hand_to_parameters]
    rw [if_pos hrec, if_pos hrec]
    constructor
    · simp [lookup_pair_cons, gesture_to_sound_getD]
    · rfl
  · intro hrec
    simp only [map_hand_to_parameters]
    rw [if_neg hrec, if_neg hrec]
    constructor
    · simp [lookup_pair_cons]
    · rfl

/-- C7: the key "tempo" is always present in the output parameter set.
With at least two samples in the position buffer after the push, it is the
range-mapped distance between the smoothed position and the second-most-
recent raw sample (input range [0, 0.1], output [TEMPO_MIN, TEMPO_MAX]);
with fewer than two samples it is exactly (TEMPO_MIN + TEMPO_MAX) / 2. -/
theorem C7_tempo_always_present (nf : Vec3 → ℚ) (stdf : List Vec3 → ℚ)
    (st : MapperState) (hand : Hand) (g : Gesture) :
    (2 ≤ (pushB Config.SMOOTHING_WINDOW st.position_buffer (get_center hand)).length →
      List.lookup "tempo" (map_hand_to_parameters nf stdf st hand g).2 =
        some (map_range
          (nf (vsub
            (vmean (pushB Config.SMOOTHING_WINDOW st.position_buffer
              (get_center hand)))
            ((pushB Config.SMOOTHING_WINDOW st.position_buffer
                (get_center hand)).getD
              ((pushB Config.SMOOTHING_WINDOW st.position_buffer
                  (get_center hand)).length - 2)
              (get_center hand))))
          0 (1/10) Config.TEMPO_MIN Config.TEMPO_MAX)) ∧
    ((pushB Config.SMOOTHING_WINDOW st.position_buffer (get_center hand)).length < 2 →
      List.lookup "tempo" (map_hand_to_parameters nf stdf st hand g).2 =
        some ((Config.TEMPO_MIN + Config.TEMPO_MAX) / 2)) := by
  constructor
  · intro h2
    have h0 : 0 < (pushB Config.SMOOTHING_WINDOW st.position_buffer
        (get_center hand)).length := by omega
    simp only [map_hand_to_parameters]
    rw [if_pos h0, if_pos h2]
    by_cases hrec : Config.GESTURE_CONFIDENCE_MIN < g.confidence
    · rw [if_pos hrec]
      simp [lookup_pair_cons]
    · rw [if_neg hrec]
      simp [lookup_pair_cons]
  · intro h2
    have hn2 : ¬ 2 ≤ (pushB Config.SMOOTHING_WINDOW st.position_buffer
        (get_center hand)).length := by omega
    simp only [map_hand_to_parameters]
    rw [if_neg hn2]
    by_cases hrec : Config.GESTURE_CONFIDENCE_MIN < g.confidence
    · rw [if_pos hrec]
      simp [lookup_pair_cons]
    · rw [if_neg hrec]
      simp [lookup_pair_cons]

/-- Witness for C8: a confidence-1 gesture records and emits sound, a
confidence-0 gesture does neither. -/
theorem C8_sound_presence_gating_witness :
    (List.lookup "sound"
        (map_hand_to_parameters l1norm stdZero initialMapper (cHand 0) (cGest 1)).2 =
      some (specSoundFor (cGest 1).name) ∧
      (map_hand_to_parameters l1norm stdZero initialMapper (cHand 0)
          (cGest 1)).1.gesture_buffer =
        pushB 5 initialMapper.gesture_buffer (cGest 1).name) ∧
    (List.lookup "sound"
        (map_hand_to_parameters l1norm stdZero initialMapper (cHand 0) (cGest 0)).2 =
      none ∧
      (map_hand_to_parameters l1norm stdZero initialMapper (cHand 0)
          (cGest 0)).1.gesture_buffer = initialMapper.gesture_buffer) :=
  ⟨(C8_sound_presence_gating l1norm stdZero initialMapper (cHand 0) (cGest 1)).2.1
      (by norm_num [Config.GESTURE_CONFIDENCE_MIN, cGest]),
   (C8_sound_presence_gating l1norm stdZero initialMapper (cHand 0) (cGest 0)).2.2
      (by norm_num [Config.GESTURE_CONFIDENCE_MIN, cGest])⟩

/-- Witness for C7: the first frame yields the exact midpoint tempo, and a
two-sample buffer yields the range-mapped motion tempo. -/
theorem C7_tempo_always_present_witness :
    List.lookup "tempo"
        (map_hand_to_parameters l1norm stdZero initialMapper (cHand 0) (cGest 0)).2 =
      some ((Config.TEMPO_MIN + Config.TEMPO_MAX) / 2) ∧
    List.lookup "tempo"
        (map_hand_to_parameters l1norm stdZero ⟨[⟨0, 0, 0⟩], []⟩ (cHand 1)
          (cGest 0)).2 =
      some (map_range
        (l1norm (vsub
          (vmean (pushB Config.SMOOTHING_WINDOW [⟨0, 0, 0⟩] (get_center (cHand 1))))
          ((pushB Config.SMOOTHING_WINDOW [⟨0, 0, 0⟩] (get_center (cHand 1))).getD
            ((pushB Config.SMOOTHING_WINDOW [⟨0, 0, 0⟩]
                (get_center (cHand 1))).length - 2)
            (get_center (cHand 1)))))
        0 (1/10) Config.TEMPO_MIN Config.TEMPO_MAX) :=
  ⟨(C7_tempo_always_present l1norm stdZero initialMapper (cHand 0) (cGest 0)).2
      (by simp [pushB, initialMapper, Config.SMOOTHING_WINDOW]),
   (C7_tempo_always_present l1norm stdZero ⟨[⟨0, 0, 0⟩], []⟩ (cHand 1) (cGest 0)).1
      (by simp [pushB, Config.SMOOTHING_WINDOW])⟩

/-! ## The bounded position buffer (C9) -/

lemma pushB_le (K : ℕ) (b : List α) (x : α) (hb : b.length ≤ K) :
    (pushB K b x).length ≤ K := by
  unfold pushB
  split
  · rw [List.length_drop]
    omega
  · rename_i hge
    omega

lemma pushB_eq_drop (K : ℕ) (b : List α) (x : α) :
    pushB K b x = (b ++ [x]).drop ((b ++ [x]).length - K) := by
  unfold pushB
  split
  · rfl
  · rename_i hge
    have h0 : (b ++ [x]).length - K = 0 := by omega
    rw [h0, List.drop_zero]

lemma drop_append_drop (l m : List α) (d : ℕ) (hd : d ≤ l.length) (t : ℕ) :
    (l.drop d ++ m).drop t = (l ++ m).drop (d + t) := by
  rw [← List.drop_append_of_le_length hd, List.drop_drop]

lemma foldl_pushB_eq (K : ℕ) :
    ∀ (xs b : List α), b.length ≤ K →
      xs.foldl (pushB K) b = (b ++ xs).drop ((b ++ xs).length - K) := by
  intro xs
  induction xs with
  | nil =>
    intro b hb
    rw [List.foldl_nil, List.append_nil, Nat.sub_eq_zero_of_le hb, List.drop_zero]
  | cons x xs ih =>
    intro b hb
    rw [List.foldl_cons, ih (pushB K b x) (pushB_le K b x hb), pushB_eq_drop K b x,
      List.length_append, List.length_drop,
      drop_append_drop _ _ _ (Nat.sub_le _ _)]
    have hassoc : b ++ [x] ++ xs = b ++ x :: xs := by simp
    rw [hassoc]
    congr 1
    simp only [List.length_append, List.length_cons, List.length_nil]
    omega

lemma foldl_mhpStep_position_buffer (nf : Vec3 → ℚ) (stdf : List Vec3 → ℚ) :
    ∀ (inps : List (Hand × Gesture)) (st : MapperState),
      (inps.foldl (mhpStep nf stdf) st).position_buffer =
        (inps.map (fun ig => get_center ig.1)).foldl
          (pushB Config.SMOOTHING_WINDOW) st.position_buffer := by
  intro inps
  induction inps with
  | nil => intro st; rfl
  | cons i inps ih =>
    intro st
    rw [List.foldl_cons, List.map_cons, List.foldl_cons, ih]
    rfl

/-- C9: across every sequence of calls starting from the fresh mapper, the
position buffer holds exactly the most recent SMOOTHING_WINDOW (5) pushed
hand centers (oldest evicted first), so its length never exceeds the
capacity; and after exactly K+1 calls the smoothed position is the mean of
precisely the last K centers, the first center strictly excluded. -/
theorem C9_position_buffer_bounded_fifo (nf : Vec3 → ℚ) (stdf : List Vec3 → ℚ)
    (inps : List (Hand × Gesture)) :
    (inps.foldl (mhpStep nf stdf) initialMapper).position_buffer =
      (inps.map (fun ig => get_center ig.1)).drop
        (inps.length - Config.SMOOTHING_WINDOW) ∧
    (inps.foldl (mhpStep nf stdf) initialMapper).position_buffer.length ≤
      Config.SMOOTHING_WINDOW ∧
    (inps.length = Config.SMOOTHING_WINDOW + 1 →
      (inps.foldl (mhpStep nf stdf) initialMapper).position_buffer =
        (inps.map (fun ig => get_center ig.1)).drop 1 ∧
      vmean (inps.foldl (mhpStep nf stdf) initialMapper).position_buffer =
        vmean ((inps.map (fun ig => get_center ig.1)).drop 1)) := by
  have hbuf : (inps.foldl (mhpStep nf stdf) initialMapper).position_buffer =
      (inps.map (fun ig => get_center ig.1)).drop
        (inps.length - Config.SMOOTHING_WINDOW) := by
    rw [foldl_mhpStep_position_buffer, foldl_pushB_eq Config.SMOOTHING_WINDOW _ _
      (by simp [initialMapper])]
    simp [initialMapper]
  refine ⟨hbuf, ?_, ?_⟩
  · rw [hbuf, List.length_drop, List.length_map]
    omega
  · intro hlen
    have h1 : inps.length - Config.SMOOTHING_WINDOW = 1 := by omega
    rw [hbuf, h1]
    exact ⟨rfl, rfl⟩

/-- Witness for C9: six concrete calls leave exactly the last five centers
in the buffer. -/
theorem C9_position_buffer_bounded_fifo_witness :
    (sixFrames.foldl (mhpStep l1norm stdZero) initialMapper).position_buffer =
      (sixFrames.map (fun ig => get_center ig.1)).drop 1 ∧
    vmean (sixFrames.foldl (mhpStep l1norm stdZero) initialMapper).position_buffer =
      vmean ((sixFrames.map (fun ig => get_center ig.1)).drop 1) :=
  (C9_position_buffer_bounded_fifo l1norm stdZero sixFrames).2.2 rfl

/-! ## Feature keys cover the profile keys (C10) -/

lemma lookup_isSome_of_mem_keys {β : Type} (k : String) :
    ∀ (l : List (String × β)), k ∈ l.map Prod.fst → (List.lookup k l).isSome := by
  intro l
  induction l with
  | nil => intro h; simp at h
  | cons p t ih =>
    intro h
    cases p with
    | mk k1 v1 =>
      by_cases hk : k = k1
      · subst hk; simp [List.lookup]
      · have hb : (k == k1) = false := beq_eq_false_iff_ne.mpr hk
        simp only [List.lookup, hb]
        apply ih
        rw [List.map_cons] at h
        rcases List.mem_cons.mp h with h1 | h1
        · exact absurd h1 hk
        · exact h1

/-- C10: whenever the hand-size normalizer is positive, feature extraction
succeeds, the produced feature mapping has an entry for every feature name
referenced by every built-in profile (so the missing-key skip branch of the
matcher never fires for them), and every profile's max_score equals its
number of entries. -/
theorem C10_profile_keys_always_present (nf : Vec3 → ℚ) (h : Hand)
    (hpos : 0 < handSize nf h) :
    ∃ feats, extract_features nf h = some feats ∧
      (∀ p ∈ gesture_profiles, ∀ e ∈ p.2, (List.lookup e.1 feats).isSome) ∧
      (∀ p ∈ gesture_profiles, ∀ f2 : Features,
        (matchCounts f2 p.2).2 = (p.2.length : ℚ)) := by
  have hnz : ¬ (nf (vsub (h.positions MIDDLE_TIP) (h.positions WRIST)) = 0) := by
    intro hc
    have hs : handSize nf h = 0 := hc
    rw [hs] at hpos
    exact lt_irrefl 0 hpos
  simp only [extract_features]
  rw [if_neg hnz]
  refine ⟨_, rfl, ?_, fun p _ f2 => matchCounts_snd f2 p.2⟩
  have hcover : ∀ p ∈ gesture_profiles, ∀ e ∈ p.2, e.1 ∈
      ["thumb_dist", "index_dist", "middle_dist", "ring_dist", "pinky_dist",
       "finger_spread", "finger_curl", "thumb_extended", "index_extended",
       "middle_extended", "ring_extended", "pinky_extended", "fingers_extended",
       "other_fingers_closed", "ring_pinky_closed", "index_middle_spread",
       "thumb_pointing_up", "index_pointing"] := by decide
  intro p hp e he
  apply lookup_isSome_of_mem_keys
  simpa using hcover p hp e he

/-- Witness for C10 on a hand with positive hand size. -/
theorem C10_profile_keys_always_present_witness :
    ∃ feats, extract_features l1norm rampHand = some feats ∧
      (∀ p ∈ gesture_profiles, ∀ e ∈ p.2, (List.lookup e.1 feats).isSome) ∧
      (∀ p ∈ gesture_profiles, ∀ f2 : Features,
        (matchCounts f2 p.2).2 = (p.2.length : ℚ)) :=
  C10_profile_keys_always_present l1norm rampHand (by
    have h12 : (12 : Fin 21) ≠ 0 := by decide
    norm_num [handSize, l1norm, vsub, rampHand, MIDDLE_TIP, WRIST, h12])

/-! ## The gesture Counter (C4) -/

lemma valOf_updateCounter :
    ∀ (c : List (String × ℕ)) (x k : String),
      valOf (updateCounter c x) k = if k = x then valOf c k + 1 else valOf c k := by
  intro c
  induction c with
  | nil =>
    intro x k
    by_cases h : k = x
    · subst h; simp [updateCounter, valOf]
    · have h2 : ¬ x = k := fun hh => h hh.symm
      simp [updateCounter, valOf, h, h2]
  | cons p t ih =>
    intro x k
    cases p with
    | mk a n =>
      by_cases hax : a = x
      · subst hax
        by_cases hak : a = k
        · subst hak; simp [updateCounter, valOf]
        · have hka : ¬ k = a := fun hh => hak hh.symm
          simp [updateCounter, valOf, hak, hka]
      · by_cases hak : a = k
        · subst hak
          have hkx : ¬ a = x := hax
          simp [updateCounter, valOf, hax, hkx]
        · simp [updateCounter, valOf, hax, hak, ih x k]

lemma keysOf_updateCounter :
    ∀ (c : List (String × ℕ)) (x : String),
      keysOf (updateCounter c x) =
        if x ∈ keysOf c then keysOf c else keysOf c ++ [x] := by
  intro c
  induction c with
  | nil => intro x; simp [updateCounter, keysOf]
  | cons p t ih =>
    intro x
    cases p with
    | mk a n =>
      by_cases hax : a = x
      · subst hax
        simp [updateCounter, keysOf]
      · have hxa : ¬ x = a := fun hh => hax hh.symm
        simp only [updateCounter, if_neg hax, keysOf, List.map_cons]
        rw [show (updateCounter t x).map Prod.fst = keysOf (updateCounter t x) from rfl,
          ih x]
        by_cases hxt : x ∈ keysOf t
        · rw [if_pos hxt, if_pos (by simp [keysOf, List.mem_cons]; right; simpa [keysOf] using hxt)]
          rfl
        · rw [if_neg hxt, if_neg (by simp [keysOf, List.mem_cons, hxa]; simpa [keysOf] using hxt)]
          rfl

lemma counterOf_append_singleton (m : List String) (x : String) :
    counterOf (m ++ [x]) = updateCounter (counterOf m) x := by
  simp [counterOf, List.foldl_append]

lemma valOf_counterOf (m : List String) : ∀ k, valOf (counterOf m) k = m.count k := by
  induction m using List.reverseRecOn with
  | nil => intro k; simp [counterOf, valOf]
  | append_singleton m x ih =>
    intro k
    rw [counterOf_append_singleton, valOf_updateCounter, List.count_append,
      List.count_singleton']
    by_cases h : k = x
    · subst h; simp [ih]
    · have h2 : ¬ x = k := fun hh => h hh.symm
      simp [h, h2, ih]

lemma mem_keysOf_counterOf (m : List String) :
    ∀ k, k ∈ keysOf (counterOf m) ↔ k ∈ m := by
  induction m using List.reverseRecOn with
  | nil => intro k; simp [counterOf, keysOf]
  | append_singleton m x ih =>
    intro k
    rw [counterOf_append_singleton, keysOf_updateCounter]
    by_cases hx : x ∈ keysOf (counterOf m)
    · rw [if_pos hx]
      rw [ih]
      simp only [List.mem_append, List.mem_singleton]
      constructor
      · exact fun h => Or.inl h
      · rintro (h | rfl)
        · exact h
        · exact (ih k).mp hx
    · rw [if_neg hx]
      simp only [List.mem_append, List.mem_singleton, ih]

lemma pairwise_keysOf_counterOf (m : List String) :
    (keysOf (counterOf m)).Pairwise (fun a b => m.indexOf a < m.indexOf b) := by
  induction m using List.reverseRecOn with
  | nil => simp [counterOf, keysOf]
  | append_singleton m x ih =>
    rw [counterOf_append_singleton, keysOf_updateCounter]
    have htrans : ∀ {a b : String}, a ∈ keysOf (counterOf m) →
        b ∈ keysOf (counterOf m) → m.indexOf a < m.indexOf b →
        (m ++ [x]).indexOf a < (m ++ [x]).indexOf b := by
      intro a b ha hb hab
      rw [List.indexOf_append_of_mem ((mem_keysOf_counterOf m a).mp ha),
        List.indexOf_append_of_mem ((mem_keysOf_counterOf m b).mp hb)]
      exact hab
    by_cases hx : x ∈ keysOf (counterOf m)
    · rw [if_pos hx]
      exact List.Pairwise.imp_of_mem htrans ih
    · rw [if_neg hx]
      have hxm : x ∉ m := fun h => hx ((mem_keysOf_counterOf m x).mpr h)
      rw [List.pairwise_append]
      refine ⟨List.Pairwise.imp_of_mem htrans ih, by simp, ?_⟩
      intro a ha b hb
      rw [List.mem_singleton] at hb
      subst hb
      have ham : a ∈ m := (mem_keysOf_counterOf m a).mp ha
      rw [List.indexOf_append_of_mem ham, List.indexOf_append_of_not_mem hxm]
      have := List.indexOf_lt_length.mpr ham
      omega

lemma keysOf_nodup (m : List String) : (keysOf (counterOf m)).Nodup :=
  (pairwise_keysOf_counterOf m).imp (fun hab heq => by
    subst heq; exact absurd hab (lt_irrefl _))

lemma mem_val :
    ∀ (c : List (String × ℕ)), (keysOf c).Nodup →
      ∀ p ∈ c, p.2 = valOf c p.1 := by
  intro c
  induction c with
  | nil => intro _ p hp; simp at hp
  | cons q t ih =>
    intro hnd p hp
    cases q with
    | mk a n =>
      rcases List.mem_cons.mp hp with rfl | hp
      · simp [valOf]
      · have ha : a ∉ keysOf t := by
          have := List.pairwise_cons.mp hnd
          intro hmem
          exact absurd rfl (this.1 a hmem)
        have hap : ¬ a = p.1 := by
          intro hh
          apply ha
          rw [hh]
          exact List.mem_map_of_mem Prod.fst hp
        simp only [valOf, if_neg hap]
        exact ih (List.pairwise_cons.mp hnd).2 p hp

lemma foldMax_le :
    ∀ (ps : List (String × ℕ)) (p : String × ℕ),
      p.2 ≤ (ps.foldl (fun b q => if b.2 < q.2 then q else b) p).2 := by
  intro ps
  induction ps with
  | nil => intro p; exact le_rfl
  | cons q ps ih =>
    intro p
    rw [List.foldl_cons]
    refine le_trans ?_ (ih _)
    dsimp only
    split
    · rename_i h; exact le_of_lt h
    · exact le_rfl

lemma foldMax_ge :
    ∀ (ps : List (String × ℕ)) (p y : String × ℕ), y ∈ p :: ps →
      y.2 ≤ (ps.foldl (fun b q => if b.2 < q.2 then q else b) p).2 := by
  intro ps
  induction ps with
  | nil =>
    intro p y hy
    rcases List.mem_cons.mp hy with rfl | hy
    · exact le_rfl
    · simp at hy
  | cons q ps ih =>
    intro p y hy
    rw [List.foldl_cons]
    have hstep : p.2 ≤ (if p.2 < q.2 then q else p).2 ∧
        q.2 ≤ (if p.2 < q.2 then q else p).2 := by
      split
      · rename_i h; exact ⟨le_of_lt h, le_rfl⟩
      · rename_i h; exact ⟨le_rfl, Nat.le_of_not_lt h⟩
    rcases List.mem_cons.mp hy with rfl | hy
    · exact le_trans hstep.1 (foldMax_le ps _)
    · rcases List.mem_cons.mp hy with rfl | hy
      · exact le_trans hstep.2 (foldMax_le ps _)
      · exact ih _ y (List.mem_cons_of_mem _ hy)

lemma foldMax_decomp :
    ∀ (ps : List (String × ℕ)) (p : String × ℕ),
      ∃ l1 l2,
        p :: ps = l1 ++ (ps.foldl (fun b q => if b.2 < q.2 then q else b) p) :: l2 ∧
        ∀ y ∈ l1, y.2 < (ps.foldl (fun b q => if b.2 < q.2 then q else b) p).2 := by
  intro ps
  induction ps with
  | nil => intro p; exact ⟨[], [], rfl, by simp⟩
  | cons q ps ih =>
    intro p
    rw [List.foldl_cons]
    by_cases h : p.2 < q.2
    · rw [if_pos h]
      obtain ⟨m1, m2, heq, hm1⟩ := ih q
      refine ⟨p :: m1, m2, ?_, ?_⟩
      · rw [List.cons_append, ← heq]
      · intro y hy
        rcases List.mem_cons.mp hy with rfl | hy
        · exact lt_of_lt_of_le h (foldMax_le ps q)
        · exact hm1 y hy
    · rw [if_neg h]
      obtain ⟨m1, m2, heq, hm1⟩ := ih p
      cases m1 with
      | nil =>
        rw [List.nil_append] at heq
        injection heq with h1 h2
        refine ⟨[], q :: ps, ?_, by simp⟩
        rw [List.nil_append, ← h1]
      | cons a m1t =>
        rw [List.cons_append] at heq
        injection heq with h1 h2
        subst h1
        have hpr : p.2 < (ps.foldl (fun b q => if b.2 < q.2 then q else b) p).2 :=
          hm1 p (List.mem_cons_self _ _)
        refine ⟨p :: q :: m1t, m2, ?_, ?_⟩
        · rw [List.cons_append, List.cons_append, ← h2]
        · intro y hy
          rcases List.mem_cons.mp hy with rfl | hy
          · exact hpr
          · rcases List.mem_cons.mp hy with rfl | hy
            · exact lt_of_le_of_lt (Nat.le_of_not_lt h) hpr
            · exact hm1 y (List.mem_cons_of_mem _ hy)

/-- C4 counterexample: on the buffer [fist, open_palm, open_palm, fist]
both labels occur twice; the code (Counter.most_common) returns "fist",
the first-inserted key, while the tie-break rule as the claim words it
(first label to reach the tied maximum count under a left-to-right tally)
selects "open_palm", which reaches count 2 at the third position. -/
theorem C4_counterexample_tie_break :
    get_most_common_gesture ["fist", "open_palm", "open_palm", "fist"] = some "fist" ∧
    specMostCommon ["fist", "open_palm", "open_palm", "fist"] = some "open_palm" ∧
    "fist" ≠ "open_palm" := by
  refine ⟨by decide, by decide, by decide⟩

/-- C4 amended: on a non-empty buffer, get_most_common_gesture returns a
label of the buffer with the maximal occurrence count, and among the labels
tied at that count it is the one whose first occurrence in the buffer is
earliest (Counter insertion order); on the empty buffer it returns none. -/
theorem C4_most_common_first_occurrence_tie_break :
    get_most_common_gesture [] = none ∧
    ∀ (l : List String), l ≠ [] →
      ∃ x, get_most_common_gesture l = some x ∧ x ∈ l ∧
        (∀ y ∈ l, l.count y ≤ l.count x) ∧
        (∀ y ∈ l, l.count y = l.count x → l.indexOf x ≤ l.indexOf y) := by
  refine ⟨rfl, ?_⟩
  intro l hl
  have hne : counterOf l ≠ [] := by
    intro hc
    cases l with
    | nil => exact hl rfl
    | cons a t =>
      have ha : a ∈ keysOf (counterOf (a :: t)) :=
        (mem_keysOf_counterOf _ a).mpr (List.mem_cons_self _ _)
      rw [hc] at ha
      simp [keysOf] at ha
  obtain ⟨p, ps, hc⟩ := List.exists_cons_of_ne_nil hne
  obtain ⟨r, hr⟩ : ∃ r, ps.foldl (fun b q => if b.2 < q.2 then q else b) p = r :=
    ⟨_, rfl⟩
  have hg : get_most_common_gesture l = some r.1 := by
    unfold get_most_common_gesture
    rw [hc]
    dsimp only
    rw [hr]
  obtain ⟨l1, l2, hdec, hl1⟩ := foldMax_decomp ps p
  rw [hr] at hdec hl1
  have hdec' : counterOf l = l1 ++ r :: l2 := by rw [hc, hdec]
  have hrmem : r ∈ counterOf l := by
    rw [hdec']
    exact List.mem_append_right _ (List.mem_cons_self _ _)
  have hnd := keysOf_nodup l
  have hrkey : r.1 ∈ l :=
    (mem_keysOf_counterOf l r.1).mp (List.mem_map_of_mem Prod.fst hrmem)
  have hrval : r.2 = l.count r.1 := by
    rw [mem_val (counterOf l) hnd r hrmem, valOf_counterOf]
  refine ⟨r.1, hg, hrkey, ?_, ?_⟩
  · intro y hy
    obtain ⟨q, hqmem, hq1⟩ := List.mem_map.mp ((mem_keysOf_counterOf l y).mpr hy)
    have hqval : q.2 = l.count y := by
      rw [mem_val (counterOf l) hnd q hqmem, hq1, valOf_counterOf]
    have hle : q.2 ≤ r.2 := by
      rw [hc] at hqmem
      have := foldMax_ge ps p q hqmem
      rw [hr] at this
      exact this
    rw [← hqval, ← hrval]
    exact hle
  · intro y hy hcnt
    obtain ⟨q, hqmem, hq1⟩ := List.mem_map.mp ((mem_keysOf_counterOf l y).mpr hy)
    have hqval : q.2 = l.count y := by
      rw [mem_val (counterOf l) hnd q hqmem, hq1, valOf_counterOf]
    by_cases hqr : q = r
    · rw [← hq1, hqr]
    · have hq2 : q.2 = r.2 := by rw [hqval, hcnt, ← hrval]
      have hql2 : q ∈ l2 := by
        have hmem2 : q ∈ l1 ++ r :: l2 := by rw [← hdec']; exact hqmem
        rcases List.mem_append.mp hmem2 with h1 | h1
        · exact absurd hq2 (ne_of_lt (hl1 q h1))
        · rcases List.mem_cons.mp h1 with h2 | h2
          · exact absurd h2 hqr
          · exact h2
      have hpw := pairwise_keysOf_counterOf l
      have hkeyeq : keysOf (counterOf l) = keysOf l1 ++ r.1 :: keysOf l2 := by
        rw [hdec']
        simp [keysOf]
      rw [hkeyeq, List.pairwise_append] at hpw
      have h3 := (List.pairwise_cons.mp hpw.2.1).1 q.1
        (List.mem_map_of_mem Prod.fst hql2)
      rw [← hq1]
      exact le_of_lt h3

/-- Witness for the amended C4 on a concrete tied buffer. -/
theorem C4_most_common_first_occurrence_witness :
    ∃ x, get_most_common_gesture ["fist", "open_palm", "open_palm", "fist"] =
        some x ∧
      x ∈ ["fist", "open_palm", "open_palm", "fist"] ∧
      (∀ y ∈ ["fist", "open_palm", "open_palm", "fist"],
        (["fist", "open_palm", "open_palm", "fist"] : List String).count y ≤
          (["fist", "open_palm", "open_palm", "fist"] : List String).count x) ∧
      (∀ y ∈ ["fist", "open_palm", "open_palm", "fist"],
        (["fist", "open_palm", "open_palm", "fist"] : List String).count y =
          (["fist", "open_palm", "open_palm", "fist"] : List String).count x →
        (["fist", "open_palm", "open_palm", "fist"] : List String).indexOf x ≤
          (["fist", "open_palm", "open_palm", "fist"] : List String).indexOf y) :=
  C4_most_common_first_occurrence_tie_break.2
    ["fist", "open_palm", "open_palm", "fist"] (by decide)

end GB
